import Mathlib

/-!
# Verification of the RAG pipeline core (worker/rag)

Shallow embedding of the repository's RAG core:
`worker/rag/vector_store.py` (class `VectorStore`),
`worker/rag/pipeline.py` (class `RAGPipeline`),
`worker/rag/reranker.py` (class `Reranker`) and
`worker/rag/context_compressor.py` (class `ContextCompressor`).

Modelling conventions:
* Vectors are `List ℚ` (exact rationals in place of IEEE floats; all the
  verified properties are about membership, ordering and exact restoration,
  for which the exact field is adequate).
* A cosine-similarity score `dot(q,v) / (‖q‖·‖v‖)` is represented exactly by
  the pair `(dot q v, ‖q‖² · ‖v‖²) : ℚ × ℚ`; its real value is
  `simReal (d, n) = d / √n`, and the comparison used when sorting search hits
  (`scoreGe`) is proved to agree with the comparison of the real values
  whenever the squared norms are positive (`scoreGe_iff_simReal`).
* Python `None` tombstones in `VectorStore.documents` are `Option.none`.
* The filesystem touched by `save`/`load` is an association list from path
  strings to the serialized payload; `np.savez` appending the `.npz`
  extension when absent is modelled by `withNpz`, and
  `os.makedirs(os.path.dirname(path), exist_ok=True)` raising
  `FileNotFoundError` on an empty dirname (bare filenames) is modelled by
  `save` returning `none`.
* In-place dict mutation (the reranker attaching `rerank_score`) is modelled
  by returning the updated list alongside the function's return value.
* The unbounded `while` loop of `RAGPipeline._chunk_text` is modelled with
  explicit fuel; `none` means the loop did not terminate within the fuel.
-/

/-- Metadata payload carried by documents (opaque to all verified code). -/
abbrev Meta := List (String × String)

/-- A document as stored by `VectorStore.add`: the input dict plus the
injected `"id"` key. -/
structure StoredDoc where
  id : ℕ
  content : String
  metadata : Meta
deriving DecidableEq, Repr

/-- A document as passed to `VectorStore.add` (`{"content": …, "metadata": …}`). -/
structure DocIn where
  content : String
  metadata : Meta
deriving DecidableEq, Repr

/-- Dot product of two rational vectors (`np.dot`; excess coordinates of the
longer vector do not contribute, which is unobservable for equal lengths). -/
def dotQ (a b : List ℚ) : ℚ := (List.zipWith (· * ·) a b).sum

/-- Squared L2 norm of a vector. -/
def normSq (v : List ℚ) : ℚ := dotQ v v

/-- `worker/rag/vector_store.py`, class `VectorStore`: dimension plus the two
parallel lists `self.vectors` and `self.documents`. -/
structure VectorStore where
  dimension : ℕ
  vectors : List (List ℚ)
  documents : List (Option StoredDoc)
deriving DecidableEq, Repr

/-- `VectorStore(dimension)`: fresh empty store. -/
def VectorStore.mkStore (dimension : ℕ) : VectorStore :=
  { dimension := dimension, vectors := [], documents := [] }

/-- `VectorStore.add`: `doc_id = len(self.vectors)`, append the embedding,
append the document with the injected id, return the id. -/
def VectorStore.add (s : VectorStore) (embedding : List ℚ) (document : DocIn) :
    VectorStore × ℕ :=
  let doc_id := s.vectors.length
  ({ s with
      vectors := s.vectors ++ [embedding],
      documents := s.documents ++
        [some { id := doc_id, content := document.content,
                metadata := document.metadata }] },
   doc_id)

/-- One iteration of the `add_batch` loop:
`ids.append(self.add(emb, doc))`. -/
def addBatchStep (acc : VectorStore × List ℕ) (p : List ℚ × DocIn) :
    VectorStore × List ℕ :=
  ((VectorStore.add acc.1 p.1 p.2).1, acc.2 ++ [(VectorStore.add acc.1 p.1 p.2).2])

/-- `VectorStore.add_batch`: `for emb, doc in zip(embeddings, documents):
ids.append(self.add(emb, doc))`. -/
def VectorStore.add_batch (s : VectorStore) (embeddings : List (List ℚ))
    (documents : List DocIn) : VectorStore × List ℕ :=
  (List.zip embeddings documents).foldl addBatchStep (s, [])

/-- Exact representation of the float similarity score: the pair
`(dot q v, normSq q * normSq v)` standing for `dot q v / √(normSq q * normSq v)`,
which is the cosine similarity `np.dot(query_norm, vec_norm)`. -/
abbrev Score := ℚ × ℚ

/-- A search hit `(doc_id, similarity, document)`. -/
abbrev Hit := ℕ × Score × Option StoredDoc

/-- Comparison `sim x ≥ sim y` on exact score representations: for positive
squared norms, `d₁/√n₁ ≥ d₂/√n₂ ↔ d₁·|d₁|·n₂ ≥ d₂·|d₂|·n₁` (the map
`t ↦ t·|t|` is strictly monotone and `(d/√n)·|d/√n| = d·|d|/n`). -/
def scoreGe (x y : Score) : Prop :=
  y.1 * |y.1| * x.2 ≤ x.1 * |x.1| * y.2

instance : DecidableRel scoreGe := fun x y =>
  inferInstanceAs (Decidable (y.1 * |y.1| * x.2 ≤ x.1 * |x.1| * y.2))

/-- Sort relation on hits: descending similarity; used with a stable
insertion sort, mirroring Python's stable `list.sort(…, reverse=True)`. -/
def hitGe (a b : Hit) : Prop := scoreGe a.2.1 b.2.1

instance : DecidableRel hitGe := fun a b =>
  inferInstanceAs (Decidable (scoreGe a.2.1 b.2.1))

/-- The list `similarities` built by `VectorStore.search`: one entry
`(i, sim, self.documents[i])` per stored vector, in index order. -/
def VectorStore.hits (s : VectorStore) (query : List ℚ) : List Hit :=
  s.vectors.enum.map fun p =>
    (p.1, (dotQ query p.2, normSq query * normSq p.2),
      (s.documents.get? p.1).getD none)

/-- `VectorStore.search`: empty result on an empty store, otherwise compute
all similarities, sort descending (stable) and take the first `top_k`. -/
def VectorStore.search (s : VectorStore) (query : List ℚ) (top_k : ℕ) :
    List Hit :=
  if s.vectors = [] then []
  else ((s.hits query).insertionSort hitGe).take top_k

/-- All-zeros vector (`np.zeros(self.dimension)`). -/
def zeroVec (d : ℕ) : List ℚ := List.replicate d 0

/-- `VectorStore.delete`: if `0 ≤ doc_id < len(self.documents)`, tombstone the
slot (document `None`, vector zeroed) and return `True`, else `False`. -/
def VectorStore.delete (s : VectorStore) (doc_id : ℕ) : VectorStore × Bool :=
  if doc_id < s.documents.length then
    ({ s with
        documents := s.documents.set doc_id none,
        vectors := s.vectors.set doc_id (zeroVec s.dimension) },
     true)
  else (s, false)

/-- `VectorStore.clear`: drop both lists. -/
def VectorStore.clear (s : VectorStore) : VectorStore :=
  { s with vectors := [], documents := [] }

/-- `VectorStore.count`: number of non-`None` documents. -/
def VectorStore.count (s : VectorStore) : ℕ :=
  (s.documents.filter fun d => d.isSome).length

/-- Serialized payload of `np.savez`: the vector and document arrays. -/
abbrev Blob := List (List ℚ) × List (Option StoredDoc)

/-- Filesystem model: newest-first association list from paths to blobs. -/
abbrev Fs := List (String × Blob)

/-- Python `str.endswith`, on the underlying character lists. -/
def strEndsWith (s post : String) : Bool :=
  List.isSuffixOf post.data s.data

/-- `np.savez` appends the `.npz` extension to the filename when absent. -/
def withNpz (path : String) : String :=
  if strEndsWith path ".npz" then path else path ++ ".npz"

/-- Look up a path in the modelled filesystem. -/
def Fs.lookup (fs : Fs) (path : String) : Option Blob :=
  (fs.find? fun e => e.1 = path).map Prod.snd

/-- Python (POSIX) `os.path.dirname`: everything up to the last `'/'`,
with trailing slashes stripped unless the head is all slashes; `""` when the
path has no directory component. -/
def dirName (p : String) : String :=
  let head := (p.data.reverse.dropWhile fun c => c ≠ '/').reverse
  if head ≠ [] ∧ head.any fun c => c ≠ '/' then
    String.mk (head.reverse.dropWhile fun c => c = '/').reverse
  else String.mk head

/-- `VectorStore.save`: first `os.makedirs(os.path.dirname(path),
exist_ok=True)`, which raises `FileNotFoundError` when the dirname is empty
(any bare filename) — modelled as `none`; otherwise write the two arrays at
`path` (with `np.savez`'s `.npz` suffixing). Other `makedirs` failure modes
(permissions, a file occupying the directory path) are outside the
writable-filesystem model. -/
def VectorStore.save (s : VectorStore) (fs : Fs) (path : String) : Option Fs :=
  if dirName path = "" then none
  else some ((withNpz path, (s.vectors, s.documents)) :: fs)

/-- `VectorStore.load`: if `os.path.exists(path)` (the raw path, no
suffixing), replace both lists; otherwise do nothing. -/
def VectorStore.load (s : VectorStore) (fs : Fs) (path : String) : VectorStore :=
  match fs.lookup path with
  | some blob => { s with vectors := blob.1, documents := blob.2 }
  | none => s

/-! ## Chunker (`RAGPipeline._chunk_text`) -/

/-- Worker for `pySplit`: accumulate the current word (reversed) and break
on whitespace, never emitting empty words. -/
def splitWsAux : List Char → List Char → List (List Char)
  | [], cur => if cur = [] then [] else [cur.reverse]
  | c :: cs, cur =>
    if c.isWhitespace then
      if cur = [] then splitWsAux cs []
      else cur.reverse :: splitWsAux cs []
    else splitWsAux cs (c :: cur)

/-- Python `text.split()`: split on whitespace runs, dropping empty pieces. -/
def pySplit (text : String) : List String :=
  (splitWsAux text.data []).map String.mk

/-- Python `" ".join(words)`. -/
def joinWords (words : List String) : String :=
  String.intercalate " " words

/-- Clamp one Python slice endpoint (negative indices count from the end). -/
def pySliceIdx (n : ℕ) (i : ℤ) : ℕ :=
  if i < 0 then (max ((n : ℤ) + i) 0).toNat else min i.toNat n

/-- Python `l[a:b]` (step 1). -/
def pySlice {α : Type} (l : List α) (a b : ℤ) : List α :=
  (l.take (pySliceIdx l.length b)).drop (pySliceIdx l.length a)

/-- The `while start < len(words)` loop of `_chunk_text`, with explicit fuel;
`none` means the loop did not terminate within `fuel` iterations. The window
start is an integer because `start = end - overlap` may go negative when
`overlap > chunk_size`. -/
def chunkLoop (words : List String) (chunk_size overlap : ℤ) :
    ℕ → ℤ → List String → Option (List String)
  | 0, _, _ => none
  | fuel + 1, start, acc =>
    if start < (words.length : ℤ) then
      chunkLoop words chunk_size overlap fuel (start + chunk_size - overlap)
        (acc ++ [joinWords (pySlice words start (start + chunk_size))])
    else some acc

/-- `RAGPipeline._chunk_text(text, chunk_size, overlap)`: a single chunk equal
to the whole text when the word count is at most `chunk_size`, otherwise the
windowing loop. -/
def chunkText (fuel : ℕ) (text : String) (chunk_size overlap : ℤ) :
    Option (List String) :=
  let words := pySplit text
  if (words.length : ℤ) ≤ chunk_size then some [text]
  else chunkLoop words chunk_size overlap fuel 0 []

/-! ## Reranker, ContextCompressor, RAGPipeline -/

/-- A retrieval candidate dict built by `RAGPipeline.retrieve`
(`{"id": …, "content": …, "score": …, "metadata": …}`); `rerank_score` is the
key later attached in place by `Reranker.rerank` (`none` = key absent). -/
structure Candidate where
  id : ℕ
  content : String
  score : Score
  metadata : Meta
  rerank_score : Option ℚ
deriving DecidableEq, Repr

/-- `worker/rag/reranker.py`, class `Reranker`: readiness flag plus the
cross-encoder scoring capability `model.predict` (one score per
`(query, passage)` pair), abstracted as a function. -/
structure Reranker where
  loaded : Bool
  predict : String → String → ℚ

/-- Sort relation for `sorted(documents, key=lambda x: x['rerank_score'],
reverse=True)`: descending `rerank_score` (all documents carry the key on
this path). -/
def rerankGe (a b : Candidate) : Prop :=
  b.rerank_score.getD 0 ≤ a.rerank_score.getD 0

instance : DecidableRel rerankGe := fun a b =>
  inferInstanceAs (Decidable (b.rerank_score.getD 0 ≤ a.rerank_score.getD 0))

/-- `Reranker.rerank`, with the in-place mutation made explicit: the first
component is the caller's `documents` list after the call (each dict gains
`rerank_score` on the scoring path), the second is the returned list. On the
degraded path (`not self.is_loaded() or not documents`) the input is
untouched and its first `top_k` entries are returned unchanged. -/
def Reranker.rerank (r : Reranker) (query : String)
    (documents : List Candidate) (top_k : ℕ) :
    List Candidate × List Candidate :=
  if r.loaded = false ∨ documents = [] then (documents, documents.take top_k)
  else
    let scored := documents.map fun doc =>
      { doc with rerank_score := some (r.predict query doc.content) }
    (scored, (scored.insertionSort rerankGe).take top_k)

/-- Sort relation for the sentence scores in `ContextCompressor.compress`
(`scored_sentences.sort(key=lambda x: x[1], reverse=True)`). -/
def sentGe (a b : String × ℚ) : Prop := b.2 ≤ a.2

instance : DecidableRel sentGe := fun a b =>
  inferInstanceAs (Decidable (b.2 ≤ a.2))

/-- `ContextCompressor.compress` body for one document: skip empty content
and empty sentence lists, otherwise score the sentences, sort descending,
keep the top `max_sentences_per_doc` and rejoin with `". "` into a copy of
the document (`doc.copy()` — the input dict is not mutated). -/
def compressDoc (r : Reranker) (query : String) (max_sentences_per_doc : ℕ)
    (doc : Candidate) : Option Candidate :=
  let content := doc.content
  if content = "" then none
  else
    let sentences := content.splitOn ". "
    if sentences = [] then none
    else
      let scored := sentences.map fun sen => (sen, r.predict query sen)
      let sorted := scored.insertionSort sentGe
      let top := (sorted.take max_sentences_per_doc).map Prod.fst
      some { doc with content := String.intercalate ". " top }

/-- `ContextCompressor.compress`: pass-through when the scorer is not loaded,
otherwise the per-document compression (documents compressed to `none` are
dropped from the output). -/
def ContextCompressor.compress (r : Reranker) (query : String)
    (documents : List Candidate) (max_sentences_per_doc : ℕ) :
    List Candidate :=
  if r.loaded = false then documents
  else documents.filterMap (compressDoc r query max_sentences_per_doc)

/-- Result of the generation capability (`generate(...)["choices"][0]
["message"]["content"]` and `["model"]`). -/
structure GenOut where
  content : String
  model : String

/-- `worker/rag/pipeline.py`, class `RAGPipeline`: the owned `VectorStore`
plus the external capabilities, abstracted as deterministic functions
(`embedding_model.encode`, `QueryExpansion.expand`, the generation call and
`FactChecker.check` — the fact-checker module is not needed beyond its
interface here). -/
structure RAGPipeline where
  store : VectorStore
  encode : String → List ℚ
  expand : String → List String
  reranker : Reranker
  generate : List (String × String) → ℚ → ℕ → GenOut
  factCheck : String → List Candidate → String

/-- One merge step of `RAGPipeline.retrieve`: `if doc_id not in
retrieved_docs and doc is not None: retrieved_docs[doc_id] = {...}`.
The insertion-ordered dict is the candidate list itself. -/
def insertHit (acc : List Candidate) (h : Hit) : List Candidate :=
  match h.2.2 with
  | none => acc
  | some d =>
    if acc.any fun c => c.id = h.1 then acc
    else acc ++ [{ id := h.1, content := d.content, score := h.2.1,
                   metadata := d.metadata, rerank_score := none }]

/-- Merge one expanded query's search results into the dict. -/
def insertHits (acc : List Candidate) (hits : List Hit) : List Candidate :=
  hits.foldl insertHit acc

/-- The deduplicated candidate pool `list(retrieved_docs.values())` built by
`RAGPipeline.retrieve`: for each expanded query, search with
`initial_k = top_k * 5` and merge first-occurrence-wins. -/
def RAGPipeline.retrievedDocs (p : RAGPipeline) (query : String) (top_k : ℕ) :
    List Candidate :=
  (p.expand query).foldl
    (fun acc q => insertHits acc (p.store.search (p.encode q) (top_k * 5)))
    []

/-- `RAGPipeline.retrieve`: expansion, per-query over-fetch, merge, then
rerank against the original query. -/
def RAGPipeline.retrieve (p : RAGPipeline) (query : String) (top_k : ℕ) :
    List Candidate :=
  (p.reranker.rerank query (p.retrievedDocs query top_k) top_k).2

/-- The default system prompt of `RAGPipeline.query`. -/
def defaultSystem : String :=
  "You are a helpful assistant that answers questions based on the provided context. If the context doesn't contain relevant information, say so clearly. Always cite which source(s) you used."

/-- The `"\n\n".join(f"[Source {i+1}]: {src['content']}" …)` context string. -/
def buildContext (docs : List Candidate) : String :=
  String.intercalate "\n\n"
    (docs.enum.map fun p =>
      "[Source " ++ toString (p.1 + 1) ++ "]: " ++ p.2.content)

/-- The user message of `RAGPipeline.query`. -/
def buildUserMessage (context query : String) : String :=
  "Context:\n" ++ context ++ "\n\nQuestion: " ++ query ++
    "\n\nPlease answer based on the context above."

/-- The response dict assembled by `RAGPipeline.query`. -/
structure QueryResponse where
  answer : String
  sources : List Candidate
  model : String
  fact_check : Option String
deriving Repr

/-- `RAGPipeline.query`: retrieve, optionally compress (the compressed list
feeds generation only), build messages, generate, optionally fact-check, and
assemble the response with `"sources": sources` — the uncompressed retrieved
set. `system_prompt or (...)` falls back on both `None` and `""` (Python
truthiness). -/
def RAGPipeline.query (p : RAGPipeline) (query : String) (top_k : ℕ)
    (use_compression use_fact_checking : Bool)
    (system_prompt : Option String) (temperature : ℚ) (max_tokens : ℕ) :
    QueryResponse :=
  let sources := p.retrieve query top_k
  let context_for_generation :=
    if use_compression then
      ContextCompressor.compress p.reranker query sources 3
    else sources
  let context := buildContext context_for_generation
  let system :=
    match system_prompt with
    | none => defaultSystem
    | some sp => if sp = "" then defaultSystem else sp
  let user_message := buildUserMessage context query
  let response :=
    p.generate [("system", system), ("user", user_message)]
      temperature max_tokens
  let answer := response.content
  let fact_check_result :=
    if use_fact_checking then some (p.factCheck answer context_for_generation)
    else none
  { answer := answer, sources := sources, model := response.model,
    fact_check := fact_check_result }

/-! ## Semantic values of scores, and derived definitions used in statements -/

/-- Real value of an exact score representation: `(d, n)` stands for the
cosine similarity `d / √n`. -/
noncomputable def simReal (sc : Score) : ℝ :=
  (sc.1 : ℝ) / Real.sqrt (sc.2 : ℝ)

/-- The relation that holds along a stably descending-sorted hit list:
either strictly below in similarity, or an exact tie with the earlier
(lower) insertion index first. Phrased on the exact representations. -/
def hitOut (a b : Hit) : Prop :=
  (¬ hitGe b a) ∨ (hitGe a b ∧ hitGe b a ∧ a.1 < b.1)

/-- The candidate dict `{"id": doc_id, "content": …, "score": score,
"metadata": …}` built by `RAGPipeline.retrieve` from a search hit. -/
def hitToCand (h : Hit) : Candidate :=
  { id := h.1,
    content := (h.2.2.map StoredDoc.content).getD "",
    score := h.2.1,
    metadata := (h.2.2.map StoredDoc.metadata).getD [],
    rerank_score := none }

/-- One unfolding step of `chunkLoop`. -/
theorem chunkLoop_succ (words : List String) (chunk_size overlap : ℤ)
    (fuel : ℕ) (start : ℤ) (acc : List String) :
    chunkLoop words chunk_size overlap (fuel + 1) start acc =
      if start < (words.length : ℤ) then
        chunkLoop words chunk_size overlap fuel (start + chunk_size - overlap)
          (acc ++ [joinWords (pySlice words start (start + chunk_size))])
      else some acc := rfl

/-! ## C1: `query` reports the uncompressed sources -/

/-- C1: for every query, top_k and flag settings (and any capability
behaviour), the `sources` field of `RAGPipeline.query`'s response is exactly
the output of `RAGPipeline.retrieve` for the same query and top_k — the
original uncompressed retrieved set — even when `use_compression = true` and
generation was conditioned on the compressed context
(`ContextCompressor.compress` builds copies and the response is assembled
from `sources`, not from `context_for_generation`). -/
theorem query_sources_are_uncompressed_retrieve (p : RAGPipeline)
    (query : String) (top_k : ℕ) (use_compression use_fact_checking : Bool)
    (system_prompt : Option String) (temperature : ℚ) (max_tokens : ℕ) :
    (p.query query top_k use_compression use_fact_checking system_prompt
        temperature max_tokens).sources = p.retrieve query top_k := rfl

/-! ## C4: `add` performs no dimension check -/

/-- C4 counterexample: adding a length-1 vector to a dimension-2 store does
not fail — it appends and returns the fresh id 0 (the claim says it must
fail with `DimensionMismatch` whenever the length differs from the store's
dimension). -/
theorem add_mismatched_vector_succeeds_cex :
    ([(1 : ℚ)].length ≠ (VectorStore.mkStore 2).dimension) ∧
    ((VectorStore.mkStore 2).add [(1 : ℚ)] ⟨"x", []⟩).2 = 0 ∧
    ((VectorStore.mkStore 2).add [(1 : ℚ)] ⟨"x", []⟩).1.vectors = [[(1 : ℚ)]] := by
  refine ⟨by decide, rfl, rfl⟩

/-- C4 amended: `VectorStore.add` never checks the vector length against the
configured dimension: for every store, vector and document it appends both
entries and returns the fresh id `len(self.vectors)`; no `DimensionMismatch`
failure path exists and the dimension field is untouched. -/
theorem add_always_appends (s : VectorStore) (embedding : List ℚ)
    (document : DocIn) :
    (s.add embedding document).2 = s.vectors.length ∧
    (s.add embedding document).1.vectors = s.vectors ++ [embedding] ∧
    (s.add embedding document).1.documents = s.documents ++
      [some { id := s.vectors.length, content := document.content,
              metadata := document.metadata }] ∧
    (s.add embedding document).1.dimension = s.dimension :=
  ⟨rfl, rfl, rfl, rfl⟩

/-! ## C10: `add_batch` zips and truncates silently -/

/-- Unfolding of the `add_batch` fold: ids are consecutive fresh ids and the
vectors appended are exactly the zipped pairs' embeddings. -/
theorem add_batch_go (l : List (List ℚ × DocIn)) :
    ∀ (s : VectorStore) (ids : List ℕ),
      (l.foldl addBatchStep (s, ids)).2
        = ids ++ List.range' s.vectors.length l.length ∧
      (l.foldl addBatchStep (s, ids)).1.vectors
        = s.vectors ++ l.map Prod.fst := by
  induction l with
  | nil => intro s ids; simp
  | cons p l ih =>
    intro s ids
    have hstep : addBatchStep (s, ids) p =
        ((VectorStore.add s p.1 p.2).1, ids ++ [s.vectors.length]) := rfl
    have h := ih (VectorStore.add s p.1 p.2).1 (ids ++ [s.vectors.length])
    simp only [List.foldl_cons, hstep]
    refine ⟨?_, ?_⟩
    · rw [h.1]
      simp [VectorStore.add, List.range'_succ, List.length_append]
    · rw [h.2]
      simp [VectorStore.add]

/-- C10: `add_batch` pairs embeddings with documents positionally via `zip`
and silently stops at the end of the shorter sequence: it returns exactly one
fresh id per zipped pair (`min` of the two lengths), appends exactly those
embeddings, and — being a total function — never reports a length mismatch. -/
theorem add_batch_truncates_silently (s : VectorStore)
    (embeddings : List (List ℚ)) (documents : List DocIn) :
    (s.add_batch embeddings documents).2 =
      List.range' s.vectors.length
        (min embeddings.length documents.length) ∧
    (s.add_batch embeddings documents).2.length =
      min embeddings.length documents.length ∧
    (s.add_batch embeddings documents).1.vectors =
      s.vectors ++ (embeddings.zip documents).map Prod.fst := by
  have h := add_batch_go (embeddings.zip documents) s []
  unfold VectorStore.add_batch
  refine ⟨?_, ?_, ?_⟩
  · rw [h.1]; simp [List.length_zip]
  · rw [h.1]; simp [List.length_zip]
  · exact h.2

/-! ## C2: `delete` tombstones, but `search` does not skip tombstones -/

/-- C2 counterexample: in a one-entry store, after a successful `delete 0`
a `search` still returns the deleted id 0 (the tombstoned slot — zero vector,
absent document — is *not* skipped by `VectorStore.search`; only the
pipeline's `retrieve` filters it out). -/
theorem search_returns_deleted_id_cex :
    (((((VectorStore.mkStore 1).add [1] ⟨"x", []⟩).1.delete 0).2 = true) ∧
     (((((VectorStore.mkStore 1).add [1] ⟨"x", []⟩).1.delete 0).1.search
         [1] 5).map Prod.fst = [0])) := by
  constructor
  · rfl
  · norm_num [VectorStore.mkStore, VectorStore.add, VectorStore.delete,
      VectorStore.search, VectorStore.hits, dotQ, normSq, zeroVec,
      List.insertionSort, List.enum, List.enumFrom]

/-- Tombstoning a live slot decreases the number of live slots by one. -/
theorem count_filter_set_none :
    ∀ (l : List (Option StoredDoc)) (i : ℕ) (d : StoredDoc),
      l[i]? = some (some d) →
      ((l.set i none).filter fun o => o.isSome).length + 1 =
        (l.filter fun o => o.isSome).length := by
  intro l
  induction l with
  | nil => intro i d h; simp at h
  | cons x xs ih =>
    intro i d h
    cases i with
    | zero =>
      simp only [List.getElem?_cons_zero, Option.some.injEq] at h
      subst h
      simp [List.filter]
    | succ j =>
      simp only [List.getElem?_cons_succ] at h
      have := ih j d h
      cases hx : x.isSome <;> simp [List.filter, hx] <;> omega

/-- C2 amended: `delete(id)` on an in-range id whose slot is live succeeds,
decreases `count()` by exactly one and tombstones the slot (document absent,
vector zeroed) — but, contrary to the claim, `VectorStore.search` does not
skip tombstoned entries and can still return the deleted id (see the
counterexample); the `doc is not None` filter lives in `RAGPipeline.retrieve`
instead. -/
theorem delete_tombstones_and_count (s : VectorStore) (i : ℕ) (d : StoredDoc)
    (h : s.documents[i]? = some (some d)) :
    (s.delete i).2 = true ∧
    (s.delete i).1.count + 1 = s.count ∧
    (s.delete i).1.documents[i]? = some none ∧
    (s.delete i).1.vectors = s.vectors.set i (zeroVec s.dimension) := by
  have hlt : i < s.documents.length := by
    by_contra hge
    rw [List.getElem?_eq_none (le_of_not_lt hge)] at h
    exact Option.noConfusion h
  refine ⟨?_, ?_, ?_, ?_⟩
  · simp [VectorStore.delete, hlt]
  · simp only [VectorStore.delete, hlt, if_true, VectorStore.count]
    exact count_filter_set_none s.documents i d h
  · simp [VectorStore.delete, hlt, List.getElem?_set]
  · simp [VectorStore.delete, hlt]

/-- C2 amended, witness: the one-entry store with a live slot 0. -/
theorem delete_tombstones_and_count_witness :
    ((((VectorStore.mkStore 1).add [1] ⟨"x", []⟩).1.documents[0]? =
        some (some ⟨0, "x", []⟩)) ∧
     ((((VectorStore.mkStore 1).add [1] ⟨"x", []⟩).1.delete 0).2 = true ∧
      ((((VectorStore.mkStore 1).add [1] ⟨"x", []⟩).1.delete 0).1.count + 1 =
        ((VectorStore.mkStore 1).add [1] ⟨"x", []⟩).1.count) ∧
      ((((VectorStore.mkStore 1).add [1] ⟨"x", []⟩).1.delete 0).1.documents[0]? =
        some none) ∧
      ((((VectorStore.mkStore 1).add [1] ⟨"x", []⟩).1.delete 0).1.vectors =
        ((VectorStore.mkStore 1).add [1] ⟨"x", []⟩).1.vectors.set 0
          (zeroVec ((VectorStore.mkStore 1).add [1] ⟨"x", []⟩).1.dimension)))) :=
  ⟨rfl, delete_tombstones_and_count _ 0 ⟨0, "x", []⟩ rfl⟩

/-! ## C6: save/load round-trip, path extension and dirname pitfalls -/

/-- C6 counterexample: for the path `"d/p"` (a directory component, so
`os.makedirs` succeeds), `save` writes through `np.savez`, which stores the
data at `"d/p" ++ ".npz"`, while `load` checks `os.path.exists("d/p")` —
which fails — and silently loads nothing; the fresh store stays empty, so
the round-tripped `search` results differ from the original's. -/
theorem save_load_roundtrip_cex :
    ((VectorStore.save (((VectorStore.mkStore 1).add [1] ⟨"x", []⟩).1)
        [] "d/p") ≠ none) ∧
    ((VectorStore.load (VectorStore.mkStore 1)
        ((VectorStore.save (((VectorStore.mkStore 1).add [1] ⟨"x", []⟩).1)
          [] "d/p").getD []) "d/p").search [1] 1 = []) ∧
    ((((VectorStore.mkStore 1).add [1] ⟨"x", []⟩).1.search [1] 1).map
        Prod.fst = [0]) := by
  refine ⟨by decide, ?_, ?_⟩
  · have hdir : dirName "d/p" = "d" := by decide
    have hnpz : withNpz "d/p" = "d/p.npz" := by decide
    have hlk : Fs.lookup [("d/p.npz",
        ((((VectorStore.mkStore 1).add [1] ⟨"x", []⟩).1).vectors,
         (((VectorStore.mkStore 1).add [1] ⟨"x", []⟩).1).documents))] "d/p"
        = none := by decide
    simp only [VectorStore.save, hdir, hnpz]
    rw [if_neg (by decide)]
    simp only [Option.getD_some]
    simp only [VectorStore.load, hlk]
    rfl
  · norm_num [VectorStore.mkStore, VectorStore.add, VectorStore.search,
      VectorStore.hits, dotQ, normSq, List.insertionSort, List.enum,
      List.enumFrom]

/-- C6 amended: for every path with a directory component
(`os.path.dirname(path) ≠ ""`, otherwise `os.makedirs` raises
`FileNotFoundError` before anything is written) that already ends in
`".npz"` (so that `np.savez` does not change the filename), `save` succeeds
and `load` into a fresh store of the same dimension restores the vector and
document arrays exactly — tombstones and ids included — and therefore
reproduces identical `search` results for every query vector and top_k. -/
theorem save_load_roundtrip_npz (s : VectorStore) (fs : Fs) (path : String)
    (hdir : dirName path ≠ "") (hnpz : strEndsWith path ".npz" = true)
    (q : List ℚ) (top_k : ℕ) :
    (s.save fs path = some ((path, (s.vectors, s.documents)) :: fs)) ∧
    ((VectorStore.load (VectorStore.mkStore s.dimension)
        ((s.save fs path).getD []) path).vectors = s.vectors) ∧
    ((VectorStore.load (VectorStore.mkStore s.dimension)
        ((s.save fs path).getD []) path).documents = s.documents) ∧
    ((VectorStore.load (VectorStore.mkStore s.dimension)
        ((s.save fs path).getD []) path).search q top_k = s.search q top_k) := by
  have hpath : withNpz path = path := by simp [withNpz, hnpz]
  have hsave : s.save fs path = some ((path, (s.vectors, s.documents)) :: fs) := by
    simp [VectorStore.save, hdir, hpath]
  have hlk : Fs.lookup ((s.save fs path).getD []) path =
      some (s.vectors, s.documents) := by
    rw [hsave]
    simp [Fs.lookup, List.find?]
  have hload : VectorStore.load (VectorStore.mkStore s.dimension)
      ((s.save fs path).getD []) path = s := by
    simp only [VectorStore.load, hlk]
    rfl
  rw [hload]
  exact ⟨hsave, rfl, rfl, rfl⟩

/-- C6 amended, witness: a concrete one-entry store saved at `"d/p.npz"`. -/
theorem save_load_roundtrip_npz_witness :
    (dirName "d/p.npz" ≠ "") ∧
    (strEndsWith "d/p.npz" ".npz" = true) ∧
    ((VectorStore.load
        (VectorStore.mkStore
          (((VectorStore.mkStore 1).add [1] ⟨"x", []⟩).1.dimension))
        (((((VectorStore.mkStore 1).add [1] ⟨"x", []⟩).1).save []
          "d/p.npz").getD []) "d/p.npz").search [1] 2 =
      ((VectorStore.mkStore 1).add [1] ⟨"x", []⟩).1.search [1] 2) :=
  ⟨by decide, by decide,
   (save_load_roundtrip_npz (((VectorStore.mkStore 1).add [1] ⟨"x", []⟩).1)
      [] "d/p.npz" (by decide) (by decide) [1] 2).2.2.2⟩

/-! ## C5 / C3: chunking behaviour -/

/-- `chunkLoop` is fuel-monotone on terminating runs. -/
theorem chunkLoop_mono (w : List String) (c o : ℤ) :
    ∀ (f f' : ℕ) (start : ℤ) (acc r : List String), f ≤ f' →
      chunkLoop w c o f start acc = some r →
      chunkLoop w c o f' start acc = some r := by
  intro f
  induction f with
  | zero => intro f' start acc r _ h; exact absurd h (by simp [chunkLoop])
  | succ f ih =>
    intro f' start acc r hle h
    obtain ⟨f'', rfl⟩ : ∃ f'', f' = f'' + 1 := ⟨f' - 1, by omega⟩
    rw [chunkLoop_succ] at h ⊢
    by_cases hs : start < (w.length : ℤ)
    · rw [if_pos hs] at h ⊢
      exact ih f'' _ _ _ (by omega) h
    · rw [if_neg hs] at h ⊢
      exact h

/-- C5 counterexample: on a concrete 25-word text with `chunk_size = 10`,
`overlap = 3`, `_chunk_text` produces *four* chunks, with window starts at
word offsets 0, 7, 14 and 21 (the loop also emits the tail window starting
at 21, which the claim's count of three chunks with starts 0, 7, 14
misses). -/
theorem chunk_25_words_cex :
    chunkText 5 "a b c d e f g h i j k l m n o p q r s t u v w x y" 10 3 =
      some ["a b c d e f g h i j",
            "h i j k l m n o p q",
            "o p q r s t u v w x",
            "v w x y"] := by decide

/-- C5 amended: for every text of exactly 25 whitespace-delimited words and
`chunk_size = 10`, `overlap = 3`, the chunk operation produces exactly 4
chunks, the word-windows starting at offsets 0, 7, 14 and 21 (step
`chunk_size - overlap = 7`; the loop keeps emitting windows until the start
reaches the word count, so the tail window at 21 is included). -/
theorem chunk_25_words_10_3 (text : String) (fuel : ℕ)
    (hw : (pySplit text).length = 25) (hf : 5 ≤ fuel) :
    chunkText fuel text 10 3 =
      some [joinWords (pySlice (pySplit text) 0 10),
            joinWords (pySlice (pySplit text) 7 17),
            joinWords (pySlice (pySplit text) 14 24),
            joinWords (pySlice (pySplit text) 21 31)] := by
  have hlen : ((pySplit text).length : ℤ) = 25 := by rw [hw]; norm_num
  have h5 : chunkLoop (pySplit text) 10 3 5 0 [] =
      some [joinWords (pySlice (pySplit text) 0 10),
            joinWords (pySlice (pySplit text) 7 17),
            joinWords (pySlice (pySplit text) 14 24),
            joinWords (pySlice (pySplit text) 21 31)] := by
    rw [show (5:ℕ) = 4+1 from rfl, chunkLoop_succ, if_pos (by rw [hlen]; norm_num)]
    rw [show (4:ℕ) = 3+1 from rfl, chunkLoop_succ, if_pos (by rw [hlen]; norm_num)]
    rw [show (3:ℕ) = 2+1 from rfl, chunkLoop_succ, if_pos (by rw [hlen]; norm_num)]
    rw [show (2:ℕ) = 1+1 from rfl, chunkLoop_succ, if_pos (by rw [hlen]; norm_num)]
    rw [chunkLoop_succ, if_neg (by rw [hlen]; norm_num)]
    norm_num
  simp only [chunkText]
  rw [if_neg (by rw [hlen]; norm_num)]
  exact chunkLoop_mono _ _ _ 5 fuel 0 _ _ hf h5

/-- C5 amended, witness: the concrete 25-word text. -/
theorem chunk_25_words_10_3_witness :
    ((pySplit "a b c d e f g h i j k l m n o p q r s t u v w x y").length
        = 25) ∧
    (5 ≤ 5) ∧
    (chunkText 5 "a b c d e f g h i j k l m n o p q r s t u v w x y" 10 3 =
      some [joinWords (pySlice
              (pySplit "a b c d e f g h i j k l m n o p q r s t u v w x y")
              0 10),
            joinWords (pySlice
              (pySplit "a b c d e f g h i j k l m n o p q r s t u v w x y")
              7 17),
            joinWords (pySlice
              (pySplit "a b c d e f g h i j k l m n o p q r s t u v w x y")
              14 24),
            joinWords (pySlice
              (pySplit "a b c d e f g h i j k l m n o p q r s t u v w x y")
              21 31)]) :=
  ⟨by decide, by decide,
   chunk_25_words_10_3 "a b c d e f g h i j k l m n o p q r s t u v w x y" 5
     (by decide) (by decide)⟩

/-- When the step `chunk_size - overlap` is non-positive and the word list is
non-empty, the window start never advances past 0, so the loop guard stays
true and the loop exhausts any amount of fuel. -/
theorem chunkLoop_nonpos_step_diverges (w : List String) (c o : ℤ)
    (hco : c ≤ o) (hw : 0 < w.length) :
    ∀ (fuel : ℕ) (start : ℤ) (acc : List String), start ≤ 0 →
      chunkLoop w c o fuel start acc = none := by
  intro fuel
  induction fuel with
  | zero => intro start acc _; rfl
  | succ f ih =>
    intro start acc hs
    have hpos : (0 : ℤ) < w.length := by exact_mod_cast hw
    rw [chunkLoop_succ, if_pos (show start < (w.length : ℤ) by omega)]
    exact ih _ _ (by omega)

/-- C3: for every text whose word count exceeds `chunk_size`, if
`overlap ≥ chunk_size` then `_chunk_text` never terminates: for every amount
of fuel the loop is still running (`none`), because `start = end - overlap`
never advances. No `InvalidConfig` check exists in the code — the spec's
required immediate error is the intended behaviour, the unbounded loop is
the code's actual behaviour. -/
theorem chunk_overlap_ge_size_diverges (text : String) (c o : ℤ) (fuel : ℕ)
    (hc : 0 ≤ c) (hco : c ≤ o) (hlen : c < ((pySplit text).length : ℤ)) :
    chunkText fuel text c o = none := by
  simp only [chunkText]
  rw [if_neg (by omega)]
  exact chunkLoop_nonpos_step_diverges (pySplit text) c o hco
    (by exact_mod_cast lt_of_le_of_lt hc hlen) fuel 0 [] le_rfl

/-- C3 witness: text `"a b"` with `chunk_size = overlap = 1`; even with fuel
1000 the loop has not terminated. -/
theorem chunk_overlap_ge_size_diverges_witness :
    ((0 : ℤ) ≤ 1) ∧ ((1 : ℤ) ≤ 1) ∧ ((1 : ℤ) < ((pySplit "a b").length : ℤ)) ∧
    chunkText 1000 "a b" 1 1 = none :=
  ⟨by decide, by decide, by decide,
   chunk_overlap_ge_size_diverges "a b" 1 1 1000 (by decide) (by decide)
     (by decide)⟩

/-! ## C9: `rerank` mutates every input document in place -/

/-- C9: when the scoring model is loaded and the document list is non-empty,
`Reranker.rerank` attaches `rerank_score` to *every* document dict of the
caller's input list (modelled as the first component of the result — the
list the caller's retained references observe after the call): the list
keeps its length, each position `i` holds the input dict at `i` with
`rerank_score := predict(query, content)` added, and hence every document —
including those beyond the returned `top_k` — carries a score. -/
theorem rerank_scores_all_documents_in_place (r : Reranker) (query : String)
    (documents : List Candidate) (top_k : ℕ)
    (hl : r.loaded = true) (hd : documents ≠ []) :
    ((r.rerank query documents top_k).1.length = documents.length) ∧
    (∀ i : ℕ, i < documents.length →
      (r.rerank query documents top_k).1[i]? =
        (documents[i]?.map fun d =>
          { d with rerank_score := some (r.predict query d.content) })) ∧
    (∀ c ∈ (r.rerank query documents top_k).1, c.rerank_score ≠ none) := by
  have hguard : ¬ (r.loaded = false ∨ documents = []) := by
    simp [hl, hd]
  refine ⟨?_, ?_, ?_⟩
  · simp [Reranker.rerank, hguard]
  · intro i hi
    simp [Reranker.rerank, hguard, List.getElem?_map]
  · intro c hc
    simp only [Reranker.rerank, hguard, if_false, if_neg hguard] at hc
    obtain ⟨d, _, rfl⟩ := List.mem_map.mp hc
    simp

/-- C9 witness: a loaded scorer on a two-document list with `top_k = 1`; the
second document is beyond the returned top_k yet is scored in place. -/
theorem rerank_scores_all_documents_in_place_witness :
    ((Reranker.mk true fun _ _ => 1).loaded = true) ∧
    (([⟨0, "a", (0, 0), [], none⟩, ⟨1, "b", (0, 0), [], none⟩] :
        List Candidate) ≠ []) ∧
    (∀ c ∈ ((Reranker.mk true fun _ _ => 1).rerank "q"
        [⟨0, "a", (0, 0), [], none⟩, ⟨1, "b", (0, 0), [], none⟩] 1).1,
      c.rerank_score ≠ none) :=
  ⟨rfl, by decide,
   (rerank_scores_all_documents_in_place (Reranker.mk true fun _ _ => 1) "q"
      [⟨0, "a", (0, 0), [], none⟩, ⟨1, "b", (0, 0), [], none⟩] 1 rfl
      (by decide)).2.2⟩

/-! ## C8: `retrieve` merges first-occurrence-wins across expanded queries -/

/-- `Option.map` distributes over `Option.or`. -/
theorem optionMap_or {α β : Type} (f : α → β) (a b : Option α) :
    (a.or b).map f = (a.map f).or (b.map f) := by
  cases a <;> rfl

/-- `Option.or` keeps the left operand when it is `some`. -/
theorem optionOr_of_isSome {α : Type} (a b : Option α) (h : a.isSome) :
    a.or b = a := by
  cases a
  · exact absurd h (by simp)
  · rfl

/-- Merging one result list: the merged dict's entry for id `i` is its old
entry if present, else the first live (non-`None`-document) hit with that id
in the result list; later duplicates and their scores are ignored. -/
theorem insertHits_find? (i : ℕ) :
    ∀ (hits : List Hit) (acc : List Candidate),
      ((insertHits acc hits).find? fun c => c.id = i) =
        ((acc.find? fun c => c.id = i).or
          (((hits.filter fun h => h.2.2.isSome).find? fun h => h.1 = i).map
            hitToCand)) := by
  intro hits
  induction hits with
  | nil => intro acc; simp [insertHits]
  | cons h hs ih =>
    intro acc
    obtain ⟨j, sc, doc⟩ := h
    have hstep : insertHits acc ((j, sc, doc) :: hs) =
        insertHits (insertHit acc (j, sc, doc)) hs := rfl
    rw [hstep, ih]
    cases doc with
    | none => simp [insertHit, List.filter]
    | some d =>
      have hfilter : (((j, sc, some d) :: hs).filter
          fun h => h.2.2.isSome) = (j, sc, some d) ::
          (hs.filter fun h => h.2.2.isSome) := by
        simp [List.filter]
      rw [hfilter]
      by_cases hji : j = i
      · subst hji
        have hcons : ((((j, sc, some d) :: (hs.filter fun h => h.2.2.isSome))
            ).find? fun h => h.1 = j) = some (j, sc, some d) :=
          List.find?_cons_of_pos _ (by simp)
        rw [hcons]
        by_cases hany : acc.any fun c => c.id = j
        · have hsomeacc : (acc.find? fun c => c.id = j).isSome :=
            List.find?_isSome.mpr (by simpa using hany)
          have : insertHit acc (j, sc, some d) = acc := by
            simp [insertHit, hany]
          rw [this, optionOr_of_isSome _ _ hsomeacc,
            optionOr_of_isSome _ _ hsomeacc]
        · have happ : insertHit acc (j, sc, some d) =
              acc ++ [hitToCand (j, sc, some d)] := by
            simp [insertHit, hany, hitToCand]
          rw [happ, List.find?_append]
          have hone : (([hitToCand (j, sc, some d)]).find?
              fun c => c.id = j) = some (hitToCand (j, sc, some d)) :=
            List.find?_cons_of_pos _ (by simp [hitToCand])
          rw [hone, Option.or_assoc]
          rfl
      · have hcons : ((((j, sc, some d) :: (hs.filter fun h => h.2.2.isSome))
            ).find? fun h => h.1 = i) =
            ((hs.filter fun h => h.2.2.isSome).find? fun h => h.1 = i) :=
          List.find?_cons_of_neg _ (by simp [hji])
        rw [hcons]
        by_cases hany : acc.any fun c => c.id = j
        · have : insertHit acc (j, sc, some d) = acc := by
            simp [insertHit, hany]
          rw [this]
        · have happ : insertHit acc (j, sc, some d) =
              acc ++ [hitToCand (j, sc, some d)] := by
            simp [insertHit, hany, hitToCand]
          rw [happ, List.find?_append]
          have hone : (([hitToCand (j, sc, some d)]).find?
              fun c => c.id = i) = none := by
            simp [List.find?, hitToCand, hji]
          rw [hone, Option.or_none]

/-- Folding the merge over all expanded queries' result lists. -/
theorem retrievedDocs_go (f : String → List Hit) (i : ℕ) :
    ∀ (qs : List String) (acc : List Candidate),
      ((qs.foldl (fun acc q => insertHits acc (f q)) acc).find?
          fun c => c.id = i) =
        ((acc.find? fun c => c.id = i).or
          ((((qs.map f).flatten.filter fun h => h.2.2.isSome).find?
            fun h => h.1 = i).map hitToCand)) := by
  intro qs
  induction qs with
  | nil => intro acc; simp
  | cons q qs ih =>
    intro acc
    simp only [List.foldl_cons, List.map_cons, List.flatten_cons]
    rw [ih, insertHits_find?, List.filter_append, List.find?_append,
      optionMap_or, Option.or_assoc]

/-- C8: for every query and top_k, the candidate pool that
`RAGPipeline.retrieve` builds merges the per-expanded-query search results —
each fetched with `initial_k = top_k * 5` — keyed by document id, keeping
only the first occurrence encountered (in expanded-query order, then result
order, skipping `None` documents): the merged entry for any id `i` equals
the first live hit with that id across the concatenated result lists, so
later duplicates are discarded and their scores never affect the kept
candidate. -/
theorem retrieve_merges_first_occurrence_wins (p : RAGPipeline)
    (query : String) (top_k i : ℕ) :
    ((p.retrievedDocs query top_k).find? fun c => c.id = i) =
      ((((p.expand query).map fun q =>
          p.store.search (p.encode q) (top_k * 5)).flatten.filter
            fun h => h.2.2.isSome).find? fun h => h.1 = i).map hitToCand := by
  unfold RAGPipeline.retrievedDocs
  rw [retrievedDocs_go (fun q => p.store.search (p.encode q) (top_k * 5)) i
    (p.expand query) []]
  simp [Option.or]

/-! ## C7: `search` orders by cosine similarity, stable ties, top_k cap -/

/-- `t ↦ t·|t|` is strictly monotone on the reals. -/
theorem mulSelfAbs_strictMono : StrictMono fun x : ℝ => x * |x| := by
  intro a b hab
  show a * |a| < b * |b|
  rcases le_or_lt 0 a with ha | ha
  · rw [abs_of_nonneg ha, abs_of_nonneg (le_of_lt (lt_of_le_of_lt ha hab))]
    nlinarith
  · rcases le_or_lt 0 b with hb | hb
    · rw [abs_of_neg ha, abs_of_nonneg hb]
      nlinarith
    · rw [abs_of_neg ha, abs_of_neg hb]
      nlinarith

/-- `(d/√n)·|d/√n| = (d·|d|)/n` for positive `n`. -/
theorem simReal_mulSelfAbs (d n : ℚ) (hn : 0 < n) :
    simReal (d, n) * |simReal (d, n)| = ((d * |d| : ℚ) : ℝ) / ((n : ℚ) : ℝ) := by
  have hn' : (0 : ℝ) < (n : ℝ) := by exact_mod_cast hn
  have hs : (0 : ℝ) ≤ Real.sqrt (n : ℝ) := Real.sqrt_nonneg _
  simp only [simReal]
  rw [abs_div, abs_of_nonneg hs]
  push_cast
  rw [div_mul_div_comm, Real.mul_self_sqrt (le_of_lt hn')]

/-- The decidable comparison used by the sort agrees with the comparison of
the real cosine-similarity values whenever the squared norms are positive. -/
theorem scoreGe_iff_simReal (x y : Score) (hx : 0 < x.2) (hy : 0 < y.2) :
    scoreGe x y ↔ simReal y ≤ simReal x := by
  have hx' : (0 : ℝ) < ((x.2 : ℚ) : ℝ) := by exact_mod_cast hx
  have hy' : (0 : ℝ) < ((y.2 : ℚ) : ℝ) := by exact_mod_cast hy
  rw [← mulSelfAbs_strictMono.le_iff_le]
  show scoreGe x y ↔
    simReal y * |simReal y| ≤ simReal x * |simReal x|
  obtain ⟨x1, x2⟩ := x
  obtain ⟨y1, y2⟩ := y
  rw [simReal_mulSelfAbs y1 y2 hy, simReal_mulSelfAbs x1 x2 hx,
    div_le_div_iff hy' hx']
  unfold scoreGe
  constructor
  · intro h; exact_mod_cast h
  · intro h; exact_mod_cast h

/-- `scoreGe` is total (unconditionally). -/
theorem scoreGe_total (x y : Score) : scoreGe x y ∨ scoreGe y x :=
  le_total _ _

/-- `scoreGe` is transitive on scores with positive squared norms. -/
theorem scoreGe_trans (x y z : Score) (hx : 0 < x.2) (hy : 0 < y.2)
    (hz : 0 < z.2) (hxy : scoreGe x y) (hyz : scoreGe y z) : scoreGe x z := by
  rw [scoreGe_iff_simReal x y hx hy] at hxy
  rw [scoreGe_iff_simReal y z hy hz] at hyz
  rw [scoreGe_iff_simReal x z hx hz]
  exact le_trans hyz hxy

/-- Along a stably sorted list every earlier element dominates. -/
theorem hitOut_to_ge (a b : Hit) (h : hitOut a b) : hitGe a b := by
  rcases h with h | h
  · rcases scoreGe_total a.2.1 b.2.1 with hge | hge
    · exact hge
    · exact absurd hge h
  · exact h.1

/-- Members of `enumFrom n l`: index at least `n`, value from `l`. -/
theorem mem_enumFrom_facts {α : Type} :
    ∀ (l : List α) (n : ℕ) (p : ℕ × α), p ∈ List.enumFrom n l →
      n ≤ p.1 ∧ p.2 ∈ l := by
  intro l
  induction l with
  | nil => intro n p hp; simp at hp
  | cons x xs ih =>
    intro n p hp
    rcases List.mem_cons.mp hp with rfl | hp
    · exact ⟨le_refl _, List.mem_cons_self _ _⟩
    · have := ih (n + 1) p hp
      exact ⟨by omega, List.mem_cons_of_mem _ this.2⟩

/-- The indices of `enumFrom` are strictly increasing along the list. -/
theorem enumFrom_pairwise_fst_lt {α : Type} :
    ∀ (l : List α) (n : ℕ),
      (List.enumFrom n l).Pairwise fun a b => a.1 < b.1 := by
  intro l
  induction l with
  | nil => intro n; simp
  | cons x xs ih =>
    intro n
    refine List.pairwise_cons.mpr ⟨?_, ih (n + 1)⟩
    intro p hp
    exact lt_of_lt_of_le (Nat.lt_succ_self n) (mem_enumFrom_facts xs (n + 1) p hp).1

/-- Every hit of a store whose vectors are all non-degenerate carries a
positive squared-norm component (given a non-degenerate query). -/
theorem hits_pos (s : VectorStore) (q : List ℚ) (hq : 0 < normSq q)
    (hv : ∀ v ∈ s.vectors, 0 < normSq v) :
    ∀ h ∈ s.hits q, 0 < h.2.1.2 := by
  intro h hh
  obtain ⟨p, hp, rfl⟩ := List.mem_map.mp hh
  have hmem : p.2 ∈ s.vectors := (mem_enumFrom_facts s.vectors 0 p hp).2
  exact mul_pos hq (hv p.2 hmem)

/-- The ids of the similarity list are strictly increasing (index order). -/
theorem hits_pairwise_id_lt (s : VectorStore) (q : List ℚ) :
    (s.hits q).Pairwise fun a b => a.1 < b.1 := by
  refine List.Pairwise.map _ ?_ (enumFrom_pairwise_fst_lt s.vectors 0)
  intro a b hab
  exact hab

/-- Inserting an element whose id is below all ids of a stably sorted list
preserves stable sortedness. -/
theorem orderedInsert_pairwise_hitOut (a : Hit) :
    ∀ (l : List Hit), 0 < a.2.1.2 → (∀ x ∈ l, 0 < x.2.1.2) →
      l.Pairwise hitOut → (∀ x ∈ l, a.1 < x.1) →
      (l.orderedInsert hitGe a).Pairwise hitOut := by
  intro l
  induction l with
  | nil => intro _ _ _ _; simp [List.orderedInsert, hitOut]
  | cons b l ih =>
    intro ha hpos hsort hid
    have hposb : 0 < b.2.1.2 := hpos b (List.mem_cons_self _ _)
    have hposl : ∀ x ∈ l, 0 < x.2.1.2 :=
      fun x hx => hpos x (List.mem_cons_of_mem _ hx)
    obtain ⟨hb_rel, hsortl⟩ := List.pairwise_cons.mp hsort
    rw [List.orderedInsert]
    by_cases hab : hitGe a b
    · rw [if_pos hab]
      refine List.pairwise_cons.mpr ⟨?_, hsort⟩
      intro y hy
      rcases List.mem_cons.mp hy with rfl | hyl
      · by_cases hba : hitGe y a
        · exact Or.inr ⟨hab, hba, hid y (List.mem_cons_self _ _)⟩
        · exact Or.inl hba
      · have hby : hitGe b y := hitOut_to_ge b y (hb_rel y hyl)
        have hay : hitGe a y := scoreGe_trans _ _ _ ha hposb
          (hposl y hyl) hab hby
        by_cases hya : hitGe y a
        · exact Or.inr ⟨hay, hya, hid y (List.mem_cons_of_mem _ hyl)⟩
        · exact Or.inl hya
    · rw [if_neg hab]
      have hperm := List.perm_orderedInsert hitGe a l
      refine List.pairwise_cons.mpr ⟨?_, ih ha hposl hsortl
        (fun x hx => hid x (List.mem_cons_of_mem _ hx))⟩
      intro z hz
      have hz' : z ∈ a :: l := hperm.mem_iff.mp hz
      rcases List.mem_cons.mp hz' with rfl | hzl
      · exact Or.inl hab
      · exact hb_rel z hzl

/-- Stable insertion sort of a list with strictly increasing ids and
non-degenerate scores yields a stably sorted list: along the output, scores
descend, and exact ties keep the lower id first. -/
theorem insertionSort_pairwise_hitOut :
    ∀ (l : List Hit), (∀ x ∈ l, 0 < x.2.1.2) →
      l.Pairwise (fun a b => a.1 < b.1) →
      (l.insertionSort hitGe).Pairwise hitOut := by
  intro l
  induction l with
  | nil => intro _ _; simp
  | cons a l ih =>
    intro hpos hid
    obtain ⟨ha_rel, hidl⟩ := List.pairwise_cons.mp hid
    have hperm := List.perm_insertionSort hitGe l
    rw [List.insertionSort]
    refine orderedInsert_pairwise_hitOut a _
      (hpos a (List.mem_cons_self _ _))
      (fun x hx => hpos x (List.mem_cons_of_mem _ (hperm.mem_iff.mp hx)))
      (ih (fun x hx => hpos x (List.mem_cons_of_mem _ hx)) hidl)
      (fun x hx => ha_rel x (hperm.mem_iff.mp hx))

/-- C7: for every store whose stored vectors (and query) are non-degenerate
(positive squared norm — i.e. cosine similarity is defined everywhere),
`search` returns at most `top_k` hits, returns the empty sequence when the
index holds no entries, and is ordered by cosine similarity (real value
`simReal`) highest first, with exact similarity ties broken by insertion
order — the lower id first (Python's `list.sort` is stable). -/
theorem search_sorted_by_cosine (s : VectorStore) (q : List ℚ) (top_k : ℕ)
    (hq : 0 < normSq q) (hv : ∀ v ∈ s.vectors, 0 < normSq v) :
    ((s.search q top_k).length ≤ top_k) ∧
    (s.vectors = [] → s.search q top_k = []) ∧
    ((s.search q top_k).Pairwise fun a b =>
      simReal b.2.1 < simReal a.2.1 ∨
        (simReal a.2.1 = simReal b.2.1 ∧ a.1 < b.1)) := by
  by_cases hemp : s.vectors = []
  · refine ⟨?_, fun _ => ?_, ?_⟩ <;> simp [VectorStore.search, hemp]
  · have hsorted := insertionSort_pairwise_hitOut (s.hits q)
      (hits_pos s q hq hv) (hits_pairwise_id_lt s q)
    have hsearch : s.search q top_k =
        ((s.hits q).insertionSort hitGe).take top_k := by
      simp [VectorStore.search, hemp]
    have hposall : ∀ x ∈ ((s.hits q).insertionSort hitGe).take top_k,
        0 < x.2.1.2 := by
      intro x hx
      have hx1 : x ∈ (s.hits q).insertionSort hitGe :=
        List.take_subset _ _ hx
      have hx2 : x ∈ s.hits q :=
        (List.perm_insertionSort hitGe (s.hits q)).mem_iff.mp hx1
      exact hits_pos s q hq hv x hx2
    refine ⟨?_, fun h => absurd h hemp, ?_⟩
    · rw [hsearch]; exact List.length_take_le _ _
    · rw [hsearch]
      have htake : (((s.hits q).insertionSort hitGe).take top_k).Pairwise
          hitOut := hsorted.sublist (List.take_sublist _ _)
      refine htake.imp_of_mem ?_
      intro a b hma hmb hout
      have hpa : 0 < a.2.1.2 := hposall a hma
      have hpb : 0 < b.2.1.2 := hposall b hmb
      rcases hout with hn | ⟨hab, hba, hlt⟩
      · left
        have : ¬ (simReal a.2.1 ≤ simReal b.2.1) := by
          rw [← scoreGe_iff_simReal b.2.1 a.2.1 hpb hpa]
          exact hn
        exact lt_of_not_le this
      · right
        refine ⟨le_antisymm ?_ ?_, hlt⟩
        · exact (scoreGe_iff_simReal b.2.1 a.2.1 hpb hpa).mp hba
        · exact (scoreGe_iff_simReal a.2.1 b.2.1 hpa hpb).mp hab

/-- C7 witness: a two-vector store (dimension 1) with a non-degenerate
query. -/
theorem search_sorted_by_cosine_witness :
    (0 < normSq [1]) ∧
    (∀ v ∈ ((((VectorStore.mkStore 1).add [1] ⟨"x", []⟩).1.add [2]
        ⟨"y", []⟩).1).vectors, 0 < normSq v) ∧
    ((((((VectorStore.mkStore 1).add [1] ⟨"x", []⟩).1.add [2]
          ⟨"y", []⟩).1.search [1] 2).length ≤ 2) ∧
     (((((VectorStore.mkStore 1).add [1] ⟨"x", []⟩).1.add [2]
          ⟨"y", []⟩).1.vectors = [] →
        ((((VectorStore.mkStore 1).add [1] ⟨"x", []⟩).1.add [2]
          ⟨"y", []⟩).1.search [1] 2) = []) ∧
      (((((VectorStore.mkStore 1).add [1] ⟨"x", []⟩).1.add [2]
          ⟨"y", []⟩).1.search [1] 2).Pairwise fun a b =>
        simReal b.2.1 < simReal a.2.1 ∨
          (simReal a.2.1 = simReal b.2.1 ∧ a.1 < b.1)))) := by
  have h1 : 0 < normSq [1] := by norm_num [normSq, dotQ]
  have h2 : ∀ v ∈ ((((VectorStore.mkStore 1).add [1] ⟨"x", []⟩).1.add [2]
      ⟨"y", []⟩).1).vectors, 0 < normSq v := by
    intro v hv
    simp only [VectorStore.mkStore, VectorStore.add, List.nil_append,
      List.cons_append, List.mem_cons, List.not_mem_nil, or_false,
      List.mem_singleton] at hv
    rcases hv with rfl | rfl <;> norm_num [normSq, dotQ]
  exact ⟨h1, h2, search_sorted_by_cosine _ [1] 2 h1 h2⟩
